import Mathlib

/-!
# Shallow embedding of molibackup's configuration validation and rotation logic

This file embeds, in Lean 4, the core of the molibackup backup utility
(https://github.com/fdupoux/molibackup): the rule-driven configuration
validator (`config.go`), the job orchestrator loop (`main.go`, `core.go`)
and the EBS-snapshot rotation engine (`mod_ebs_snapshot.go`).

Modelling conventions:
* Go `int64` arithmetic is modelled by `Int`; Go's `/` on integers truncates
  toward zero, which is `Int.tdiv` (not Lean's `/` on `Int`).
* Go maps are modelled as association lists.  `map[k] = v` assignment is
  modelled either by prepending (lookup takes the first match, so the last
  write wins) or by in-place overwrite, as noted at each definition; both are
  extensionally Go-map semantics.
* Go string comparison (`sort.Strings`) compares byte sequences; for valid
  UTF-8 this coincides with code-point order, modelled on `String.data`.
* Functions returning Go `error` are modelled with `Except String`.
  Cloud-provider calls are passed in as function parameters; the sequence of
  provider calls a function issues is returned explicitly so that theorems
  can speak about which calls were (not) performed.
-/

namespace Molibackup

/-! ## Go string ordering (`sort.Strings`)

Go compares strings byte by byte.  On `String.data` (code points) this is the
same total order for valid UTF-8.  `sortStrings` is an insertion sort; since
the order is total and equal strings are identical, its result coincides with
the result of Go's (unstable) `sort.Strings`. -/

def goCharListLe : List Char → List Char → Bool
  | [], _ => true
  | _ :: _, [] => false
  | a :: as, b :: bs =>
    if a.toNat < b.toNat then true
    else if b.toNat < a.toNat then false
    else goCharListLe as bs

def goStringLe (a b : String) : Bool :=
  goCharListLe a.data b.data

def insertSorted (s : String) : List String → List String
  | [] => [s]
  | t :: ts => if goStringLe s t then s :: t :: ts else t :: insertSorted s ts

def sortStrings : List String → List String
  | [] => []
  | s :: ss => insertSorted s (sortStrings ss)

/-! ## Configuration values and validation rules (`config.go`)

A YAML section unmarshalled into `map[string]interface{}` holds dynamically
typed values; the validator only ever inspects their Go type name (`%T`) and
their rendering (`%v`), so three primitive shapes suffice. -/

inductive CValue where
  | str (s : String)
  | bool (b : Bool)
  | int (n : Int)
deriving DecidableEq, Repr

/-- Go's `fmt.Sprintf("%T", v)` on the unmarshalled value. -/
def typeName : CValue → String
  | .str _ => "string"
  | .bool _ => "bool"
  | .int _ => "int"

/-- Go's `fmt.Sprintf("%v", v)` on the unmarshalled value. -/
def renderValue : CValue → String
  | .str s => s
  | .bool true => "true"
  | .bool false => "false"
  | .int n => toString n

/-- One configuration section (`map[string]interface{}` in the source),
as an association list.  YAML mappings have unique keys. -/
abbrev ConfigSection := List (String × CValue)

/-- Structure `ConfigEntryValidation` from `config.go`.  A Go `nil` slice for
`allowedval` is `none`; a non-nil slice is `some`. -/
structure ConfigEntryValidation where
  entryname : String
  entrytype : String
  mandatory : Bool
  defaultval : String
  allowedval : Option (List String)
deriving DecidableEq, Repr

/-- Rule table `validateConfigGlobal` from `config.go`. -/
def validateConfigGlobal : List ConfigEntryValidation :=
  [{ entryname := "loglevel", entrytype := "string", mandatory := false,
     defaultval := "info", allowedval := some ["error", "warn", "info", "debug"] }]

/-- Rule table `validateConfigJobdef` from `mod_ebs_snapshot.go`. -/
def validateConfigJobdef : List ConfigEntryValidation :=
  [{ entryname := "module", entrytype := "string", mandatory := true,
     defaultval := "", allowedval := some ["ebs-snapshot"] },
   { entryname := "enabled", entrytype := "bool", mandatory := false,
     defaultval := "true", allowedval := some ["true", "false"] },
   { entryname := "dryrun", entrytype := "bool", mandatory := false,
     defaultval := "false", allowedval := some ["true", "false"] },
   { entryname := "retention", entrytype := "int", mandatory := false,
     defaultval := "30", allowedval := none },
   { entryname := "aws_region", entrytype := "string", mandatory := true,
     defaultval := "", allowedval := none },
   { entryname := "accesskey_id", entrytype := "string", mandatory := false,
     defaultval := "", allowedval := none },
   { entryname := "accesskey_secret", entrytype := "string", mandatory := false,
     defaultval := "", allowedval := none },
   { entryname := "instance_id", entrytype := "string", mandatory := false,
     defaultval := "", allowedval := none },
   { entryname := "instance_tag", entrytype := "string", mandatory := false,
     defaultval := "", allowedval := none },
   { entryname := "volume_tag", entrytype := "string", mandatory := false,
     defaultval := "", allowedval := none }]

/-- Lookup of `configmap[entry.entryname]` (first match; keys are unique). -/
def lookupEntry (m : ConfigSection) (k : String) : Option CValue :=
  (m.find? (fun kv => kv.1 = k)).map Prod.snd

/-- Model of `kconfig.Set(keypath, value)`: overwrite the entry if the key exists,
append it otherwise. -/
def setEntry : ConfigSection → String → CValue → ConfigSection
  | [], k, v => [(k, v)]
  | (k1, v1) :: rest, k, v =>
    if k1 = k then (k, v) :: rest else (k1, v1) :: setEntry rest k v

/-- The errors `configValidateAndSetDefaults` can return, one constructor per
`fmt.Errorf` site, carrying the data interpolated into the message. -/
inductive ConfigError where
  | wrongType (entryname configpath found expected : String)
  | invalidValue (value entryname : String) (allowed : List String)
  | missingField (entryname : String)
  | unknownField (entryname : String)
deriving DecidableEq, Repr

instance {ε α : Type} [DecidableEq ε] [DecidableEq α] : DecidableEq (Except ε α) :=
  fun a b =>
    match a, b with
    | .ok x, .ok y => decidable_of_iff (x = y) (by simp)
    | .error x, .error y => decidable_of_iff (x = y) (by simp)
    | .ok _, .error _ => isFalse (fun h => Except.noConfusion h)
    | .error _, .ok _ => isFalse (fun h => Except.noConfusion h)

/-- Body of the per-rule loop of `configValidateAndSetDefaults`
(`config.go` lines 168–198).  Lookups go to `configmap`, the section as
unmarshalled once at the start of the function; default values are injected
into the shared configuration store (`kconfig.Set`), whose relevant section
is threaded here as `store`. -/
def applyRule (configpath : String) (configmap : ConfigSection) (store : ConfigSection)
    (entry : ConfigEntryValidation) : Except ConfigError ConfigSection :=
  match lookupEntry configmap entry.entryname with
  | some entryval =>
    let typefound := typeName entryval
    if entry.entrytype ≠ "" ∧ typefound ≠ entry.entrytype then
      .error (.wrongType entry.entryname configpath typefound entry.entrytype)
    else
      let entryvalstr := renderValue entryval
      match entry.allowedval with
      | some allowed =>
        if allowed.contains entryvalstr then .ok store
        else .error (.invalidValue entryvalstr entry.entryname allowed)
      | none => .ok store
  | none =>
    if entry.mandatory = true then
      .error (.missingField entry.entryname)
    else if entry.defaultval ≠ "" then
      .ok (setEntry store entry.entryname (.str entry.defaultval))
    else
      .ok store

/-- The rule loop of `configValidateAndSetDefaults`: process rules in order,
returning the first error, threading the store. -/
def applyRules (configpath : String) (configmap : ConfigSection) :
    ConfigSection → List ConfigEntryValidation → Except ConfigError ConfigSection
  | store, [] => .ok store
  | store, entry :: rest =>
    match applyRule configpath configmap store entry with
    | .error e => .error e
    | .ok store2 => applyRules configpath configmap store2 rest

/-- The closed-world scan of `configValidateAndSetDefaults` (`config.go`
lines 200–205): the first key of the original section map named by no rule.
(Go map iteration order is unspecified; the list order of the association
list stands for one enumeration order.) -/
def firstUnknownKey (configmap : ConfigSection)
    (validation : List ConfigEntryValidation) : Option String :=
  (configmap.find? (fun kv => ¬ validation.any (fun r => r.entryname = kv.1))).map Prod.fst

/-- Function `configValidateAndSetDefaults` from `config.go`.  In the source the
function mutates the global `kconfig` store and returns only `error`; here
the store section is passed in (initially equal to the unmarshalled section
`configmap`) and the updated store section is returned on success. -/
def configValidateAndSetDefaults (configpath : String) (configmap : ConfigSection)
    (validation : List ConfigEntryValidation) : Except ConfigError ConfigSection :=
  match applyRules configpath configmap configmap validation with
  | .error e => .error e
  | .ok store =>
    match firstUnknownKey configmap validation with
    | some key => .error (.unknownField key)
    | none => .ok store

/-! ## Data model of the rotation engine (`core.go`, `provider_aws.go`) -/

/-- Structure `BackupItem` from `core.go`. -/
structure BackupItem where
  identifier : String
  description : String
  timestamp : Int
deriving DecidableEq, Repr

/-- Structure `ProviderAwsEbsVolume` from `provider_aws.go`. -/
structure ProviderAwsEbsVolume where
  volumeId : String
  volumeName : String
deriving DecidableEq, Repr

/-- Structure `ProviderAwsEbsSnapshot` from `provider_aws.go`. -/
structure ProviderAwsEbsSnapshot where
  volumeId : String
  snapshotId : String
  snapshotDesc : String
  snapshotTime : Int
deriving DecidableEq, Repr

/-! ## `ListBackups` (`mod_ebs_snapshot.go` lines 312–348) -/

/-- The `BackupItem` built from one discovered snapshot in the loop of
`ListBackups`. -/
def backupItemOfSnapshot (s : ProviderAwsEbsSnapshot) : BackupItem :=
  { identifier := s.snapshotId, description := s.snapshotDesc, timestamp := s.snapshotTime }

/-- Go map assignment `resultsUnordered[desc] = item`: model the map as the
history of writes, newest first; lookup takes the first match, so the last
write wins, exactly as for a Go map. -/
def mapSet (m : List (String × BackupItem)) (k : String) (v : BackupItem) :
    List (String × BackupItem) :=
  (k, v) :: m

/-- Go map read `resultsUnordered[snapname]` (the `some` case). -/
def mapGet (m : List (String × BackupItem)) (k : String) : Option BackupItem :=
  (m.find? (fun kv => kv.1 = k)).map Prod.snd

/-- One iteration of the snapshot loop of `ListBackups`, writing the item
into `resultsUnordered`. -/
def snapshotMapInsert (m : List (String × BackupItem)) (s : ProviderAwsEbsSnapshot) :
    List (String × BackupItem) :=
  mapSet m s.snapshotDesc (backupItemOfSnapshot s)

/-- The pure core of `ListBackups`, applied to the snapshots enumerated
(volume by volume, in volume order, then provider order).  The source
accumulates `snapshotNames` and `resultsUnordered` in a single loop; the two
accumulators are independent, so they are written separately:
`snapshotNames` collects every item's description (duplicates included),
`resultsUnordered` maps each description to the item (last write wins).
The final list takes, for each name of the alphabetically reordered
`snapshotNames`, the map entry (a missing key would give Go's zero value
`BackupItem{}`, hence `getD`). -/
def listBackupsPure (snapshots : List ProviderAwsEbsSnapshot) : List BackupItem :=
  let snapshotNames := snapshots.map (fun s => s.snapshotDesc)
  let resultsUnordered := snapshots.foldl snapshotMapInsert []
  (sortStrings snapshotNames).map (fun name => (mapGet resultsUnordered name).getD ⟨"", "", 0⟩)

/-- The volume loop of `ListBackups`: ask the provider for the snapshots of
each relevant volume (`ProviderAwsGetEbsSnapshots`), failing fast on a
provider error. -/
def collectSnapshots (getSnaps : String → Except String (List ProviderAwsEbsSnapshot)) :
    List ProviderAwsEbsVolume → Except String (List ProviderAwsEbsSnapshot)
  | [] => .ok []
  | v :: vs =>
    match getSnaps v.volumeId with
    | .error e => .error e
    | .ok snaps =>
      match collectSnapshots getSnaps vs with
      | .error e => .error e
      | .ok rest => .ok (snaps ++ rest)

/-- Method `ListBackups` from `mod_ebs_snapshot.go`. -/
def listBackups (getSnaps : String → Except String (List ProviderAwsEbsSnapshot))
    (volumes : List ProviderAwsEbsVolume) : Except String (List BackupItem) :=
  match collectSnapshots getSnaps volumes with
  | .error e => .error e
  | .ok snapshots => .ok (listBackupsPure snapshots)

/-! ## `DeleteOldBackups` (`mod_ebs_snapshot.go` lines 350–376) -/

/-- What `DeleteOldBackups` did (or decided) for one backup item, in the
order the items were considered. -/
inductive PruneAction where
  | deleted (identifier : String)
  | dryrunSkipped (identifier : String)
  | kept (identifier : String)
deriving DecidableEq, Repr

/-- The age computation `(curtime - item.timestamp) / 86400`: Go `int64`
division truncates toward zero, i.e. `Int.tdiv`. -/
def snapshotAge (curtime timestamp : Int) : Int :=
  Int.tdiv (curtime - timestamp) 86400

/-- Method `DeleteOldBackups`: walk the items in list order; an item is eligible
when its age strictly exceeds the retention; outside dry-run the provider
deletion (`ProviderAwsDeleteEbsSnapshot`) is called and a failure aborts the
pass.  Returns the per-item actions and the identifiers passed to the
provider deletion call, both in order. -/
def deleteOldBackups (retention : Int) (dryRun : Bool) (curtime : Int)
    (provDelete : String → Except String Unit) :
    List BackupItem → Except String (List PruneAction × List String)
  | [] => .ok ([], [])
  | item :: rest =>
    let age := snapshotAge curtime item.timestamp
    if age > retention then
      if dryRun = false then
        match provDelete item.identifier with
        | .error e => .error e
        | .ok _ =>
          match deleteOldBackups retention dryRun curtime provDelete rest with
          | .error e => .error e
          | .ok (acts, calls) => .ok (.deleted item.identifier :: acts, item.identifier :: calls)
      else
        match deleteOldBackups retention dryRun curtime provDelete rest with
        | .error e => .error e
        | .ok (acts, calls) => .ok (.dryrunSkipped item.identifier :: acts, calls)
    else
      match deleteOldBackups retention dryRun curtime provDelete rest with
      | .error e => .error e
      | .ok (acts, calls) => .ok (.kept item.identifier :: acts, calls)

/-! ## `CreateBackup` (`mod_ebs_snapshot.go` lines 284–310) -/

/-- What `CreateBackup` did (or decided) for one volume, in volume order. -/
inductive CreateEvent where
  | created (snapshotId volumeId : String)
  | dryrunSkipped (volumeId : String)
deriving DecidableEq, Repr

/-- The arguments of one `ProviderAwsCreateEbsSnapshot` call. -/
structure SnapshotRequest where
  volumeId : String
  snapname : String
  snapdate : String
  snaptime : String
deriving DecidableEq, Repr

/-- Method `CreateBackup`: for each volume the snapshot name is
`basename-<RFC3339 time>`; the wall-clock renderings (`curtime.Format`,
date, epoch string) are abstracted as the uninterpreted strings `timeRfc3339`,
`snapdate`, `snaptime`.  Outside dry-run the provider creation call is made
and a failure aborts the loop.  Returns the per-volume events and the
provider creation calls issued, both in order. -/
def createBackup (dryRun : Bool) (timeRfc3339 snapdate snaptime : String)
    (provCreate : SnapshotRequest → Except String String) :
    List ProviderAwsEbsVolume → Except String (List CreateEvent × List SnapshotRequest)
  | [] => .ok ([], [])
  | curvol :: rest =>
    let basename := if curvol.volumeName ≠ "" then curvol.volumeName else curvol.volumeId
    let snapname := basename ++ "-" ++ timeRfc3339
    let req : SnapshotRequest := ⟨curvol.volumeId, snapname, snapdate, snaptime⟩
    if dryRun = false then
      match provCreate req with
      | .error e => .error e
      | .ok snapshotId =>
        match createBackup dryRun timeRfc3339 snapdate snaptime provCreate rest with
        | .error e => .error e
        | .ok (evs, calls) => .ok (.created snapshotId curvol.volumeId :: evs, req :: calls)
    else
      match createBackup dryRun timeRfc3339 snapdate snaptime provCreate rest with
      | .error e => .error e
      | .ok (evs, calls) => .ok (.dryrunSkipped curvol.volumeId :: evs, calls)

/-! ## Job orchestrator (`config.go` lines 128–154, `main.go` lines 291–319) -/

/-- Structure `JobMetaConfig` from `config.go`. -/
structure JobMetaConfig where
  module : String
  enabled : Bool
  dryRun : Bool
  retention : Int
deriving DecidableEq, Repr

/-- List `validmods` from `readConfiguration`. -/
def validmods : List String := ["ebs-snapshot"]

/-- The per-job module check of `readConfiguration` (`config.go` lines
138–147): a job section with a missing or invalid `module` entry makes the
whole `readConfiguration` call fail. -/
def checkJobModules : List (String × JobMetaConfig) → Except String Unit
  | [] => .ok ()
  | (jobname, jobconf) :: rest =>
    if jobconf.module = "" then
      .error ("the configuration section for job \"" ++ jobname ++ "\" has no \"module\" entry")
    else if validmods.contains jobconf.module = false then
      .error ("the configuration section for job \"" ++ jobname ++ "\" has an invalid value \""
              ++ jobconf.module ++ "\" for \"module\"")
    else
      checkJobModules rest

/-- The tally `main` keeps while running jobs: the jobs actually run (in
order) and the `jobcount` / `errcount` counters. -/
structure RunTally where
  attempted : List String
  jobcount : Nat
  errcount : Nat
deriving DecidableEq, Repr

/-- The map read `jobmetadefs[jobname]` (Go map read; the zero value stands for the
impossible missing case, the loop only looks up keys of the map). -/
def lookupJob (jobs : List (String × JobMetaConfig)) (name : String) : JobMetaConfig :=
  ((jobs.find? (fun j => j.1 = name)).map Prod.snd).getD ⟨"", false, false, 0⟩

/-- The job loop of `main` (`main.go` lines 298–311): over the sorted job
names, skip disabled jobs, run enabled ones via `runJob` (modelled by
`runner`), counting every enabled job in `jobcount` and every failed one in
`errcount`. -/
def runJobsLoop (jobs : List (String × JobMetaConfig)) (runner : String → Except String Unit) :
    List String → RunTally
  | [] => ⟨[], 0, 0⟩
  | jobname :: rest =>
    let jobconfig := lookupJob jobs jobname
    if jobconfig.enabled = true then
      match runner jobname with
      | .error _ =>
        let tail := runJobsLoop jobs runner rest
        ⟨jobname :: tail.attempted, tail.jobcount + 1, tail.errcount + 1⟩
      | .ok _ =>
        let tail := runJobsLoop jobs runner rest
        ⟨jobname :: tail.attempted, tail.jobcount + 1, tail.errcount⟩
    else
      runJobsLoop jobs runner rest

/-- The alphabetically sorted list of job names built by `main` (`main.go` lines
291–295). -/
def sortedJobNames (jobs : List (String × JobMetaConfig)) : List String :=
  sortStrings (jobs.map Prod.fst)

def ExitStatusSuccessfulExecution : Nat := 0

def ExitStatusInvalidConfiguration : Nat := 1

def ExitStatusFailedToExecuteJobs : Nat := 2

/-- The exit code of `main` once jobs were run (`main.go` lines 313–319). -/
def exitCodeOfTally (t : RunTally) : Nat :=
  if t.errcount > 0 then ExitStatusFailedToExecuteJobs else ExitStatusSuccessfulExecution

/-- Outcome of a run of `main` on a parsed configuration. -/
inductive MainOutcome where
  | invalidConfiguration
  | ranJobs (tally : RunTally) (exitcode : Nat)
deriving DecidableEq, Repr

/-- The part of `main` the claims are about: `readConfiguration`'s per-job
module check (whose failure exits with `ExitStatusInvalidConfiguration`
before any job is run), then the job loop and the final exit code.  File
discovery, YAML parsing and log-level wiring are the excluded CLI shell. -/
def mainModel (jobs : List (String × JobMetaConfig))
    (runner : String → Except String Unit) : MainOutcome :=
  match checkJobModules jobs with
  | .error _ => .invalidConfiguration
  | .ok _ =>
    let tally := runJobsLoop jobs runner (sortedJobNames jobs)
    .ranJobs tally (exitCodeOfTally tally)

/-! ## Derived notions and concrete inputs used by the verification -/

/-- The later-enumerated ("last-write-wins") snapshot carrying a given
description. -/
def lastSnapshotFor (snapshots : List ProviderAwsEbsSnapshot) (k : String) :
    Option ProviderAwsEbsSnapshot :=
  snapshots.reverse.find? (fun s => s.snapshotDesc = k)

/-- A provider deletion that always succeeds (no provider failure occurs
during the pass). -/
def okDelete : String → Except String Unit := fun _ => .ok ()

/-- A provider creation that always succeeds, returning `sid`. -/
def okCreate (sid : String) : SnapshotRequest → Except String String := fun _ => .ok sid

/-- The per-item decision of `DeleteOldBackups`: eligible for deletion iff
the age strictly exceeds the retention; what happens to an eligible item
depends on the dry-run flag. -/
def classifyPrune (retention : Int) (dryRun : Bool) (curtime : Int)
    (item : BackupItem) : PruneAction :=
  if snapshotAge curtime item.timestamp > retention then
    if dryRun = false then .deleted item.identifier else .dryrunSkipped item.identifier
  else .kept item.identifier

/-- Holds on the actions that correspond to the eligible-for-deletion
decision. -/
def isDeleteDecision : PruneAction → Bool
  | .deleted _ => true
  | .dryrunSkipped _ => true
  | .kept _ => false

def createEventVolumeId : CreateEvent → String
  | .created _ v => v
  | .dryrunSkipped v => v

def isError {ε α : Type} : Except ε α → Bool
  | .error _ => true
  | .ok _ => false

/-- Two snapshots of two different volumes that (incorrectly) carry the same
description. -/
def snapDupA : ProviderAwsEbsSnapshot := ⟨"vol-1", "snap-1", "dup", 100⟩

def snapDupB : ProviderAwsEbsSnapshot := ⟨"vol-2", "snap-2", "dup", 200⟩

/-- A configuration with two jobs: the section of "alpha" is malformed (no
`module` entry), the section of "beta" is well-formed and enabled. -/
def jobsModBad : List (String × JobMetaConfig) :=
  [("alpha", ⟨"", true, false, 30⟩), ("beta", ⟨"ebs-snapshot", true, false, 30⟩)]

/-- A configuration with two well-formed enabled jobs. -/
def jobsTwoGood : List (String × JobMetaConfig) :=
  [("alpha", ⟨"ebs-snapshot", true, false, 30⟩), ("beta", ⟨"ebs-snapshot", true, false, 30⟩)]

/-- A `runJob` behaviour where job "alpha" fails (for instance because its
section fails the job-level validation in `LoadConfiguration`). -/
def failAlphaRunner : String → Except String Unit :=
  fun n => if n = "alpha" then .error "failed to validate job configuration" else .ok ()

/-- A global section holding a mistyped `loglevel` and an unknown key. -/
def sectionBadGlobal : ConfigSection := [("loglevel", .int 5), ("bogus", .str "x")]

/-! ## Helper lemmas: the Go string order is total and transitive, and
`sortStrings` is a sorted permutation -/

theorem goCharListLe_total (as bs : List Char) :
    goCharListLe as bs = true ∨ goCharListLe bs as = true := by
  induction as generalizing bs with
  | nil => left; rfl
  | cons a as ih =>
    cases bs with
    | nil => right; rfl
    | cons b bs =>
      by_cases h1 : a.toNat < b.toNat
      · left; simp [goCharListLe, h1]
      · by_cases h2 : b.toNat < a.toNat
        · right; simp [goCharListLe, h2]
        · rcases ih bs with h | h
          · left; simp [goCharListLe, h1, h2, h]
          · right; simp [goCharListLe, h1, h2, h]

theorem goCharListLe_trans (as bs cs : List Char) (h1 : goCharListLe as bs = true)
    (h2 : goCharListLe bs cs = true) : goCharListLe as cs = true := by
  induction as generalizing bs cs with
  | nil => rfl
  | cons a as ih =>
    cases bs with
    | nil => simp [goCharListLe] at h1
    | cons b bs =>
      cases cs with
      | nil => simp [goCharListLe] at h2
      | cons c cs =>
        by_cases hab : a.toNat < b.toNat
        · by_cases hbc : b.toNat < c.toNat
          · have hac : a.toNat < c.toNat := Nat.lt_trans hab hbc
            simp [goCharListLe, hac]
          · by_cases hcb : c.toNat < b.toNat
            · simp [goCharListLe, hbc, hcb] at h2
            · have hac : a.toNat < c.toNat := by omega
              simp [goCharListLe, hac]
        · by_cases hba : b.toNat < a.toNat
          · simp [goCharListLe, hab, hba] at h1
          · simp only [goCharListLe, if_neg hab, if_neg hba] at h1
            by_cases hbc : b.toNat < c.toNat
            · have hac : a.toNat < c.toNat := by omega
              simp [goCharListLe, hac]
            · by_cases hcb : c.toNat < b.toNat
              · simp [goCharListLe, hbc, hcb] at h2
              · simp only [goCharListLe, if_neg hbc, if_neg hcb] at h2
                have hac : ¬ a.toNat < c.toNat := by omega
                have hca : ¬ c.toNat < a.toNat := by omega
                simp only [goCharListLe, if_neg hac, if_neg hca]
                exact ih bs cs h1 h2

theorem goStringLe_total (a b : String) : goStringLe a b = true ∨ goStringLe b a = true :=
  goCharListLe_total a.data b.data

theorem goStringLe_trans (a b c : String) (h1 : goStringLe a b = true)
    (h2 : goStringLe b c = true) : goStringLe a c = true :=
  goCharListLe_trans a.data b.data c.data h1 h2

theorem insertSorted_perm (s : String) (l : List String) :
    List.Perm (insertSorted s l) (s :: l) := by
  induction l with
  | nil => simp [insertSorted]
  | cons t ts ih =>
    by_cases h : goStringLe s t = true
    · simp [insertSorted, h]
    · simp only [insertSorted, if_neg h]
      exact (ih.cons t).trans (List.Perm.swap s t ts)

theorem sortStrings_perm (l : List String) : List.Perm (sortStrings l) l := by
  induction l with
  | nil => simp [sortStrings]
  | cons s ss ih =>
    exact (insertSorted_perm s (sortStrings ss)).trans (ih.cons s)

theorem insertSorted_pairwise (s : String) (l : List String)
    (hl : List.Pairwise (fun a b => goStringLe a b = true) l) :
    List.Pairwise (fun a b => goStringLe a b = true) (insertSorted s l) := by
  induction l with
  | nil => simp [insertSorted]
  | cons t ts ih =>
    rw [List.pairwise_cons] at hl
    by_cases h : goStringLe s t = true
    · simp only [insertSorted, if_pos h]
      rw [List.pairwise_cons]
      refine ⟨?_, List.pairwise_cons.mpr hl⟩
      intro b hb
      rcases List.mem_cons.mp hb with rfl | hb2
      · exact h
      · exact goStringLe_trans s t b h (hl.1 b hb2)
    · simp only [insertSorted, if_neg h]
      rw [List.pairwise_cons]
      refine ⟨?_, ih hl.2⟩
      intro b hb
      have hb2 : b ∈ s :: ts := (insertSorted_perm s ts).mem_iff.mp hb
      rcases List.mem_cons.mp hb2 with rfl | hb3
      · rcases goStringLe_total b t with h2 | h2
        · exact absurd h2 h
        · exact h2
      · exact hl.1 b hb3

theorem sortStrings_pairwise (l : List String) :
    List.Pairwise (fun a b => goStringLe a b = true) (sortStrings l) := by
  induction l with
  | nil => simp [sortStrings]
  | cons s ss ih => exact insertSorted_pairwise s (sortStrings ss) ih

theorem sortStrings_length (l : List String) : (sortStrings l).length = l.length :=
  (sortStrings_perm l).length_eq

theorem sortStrings_mem (l : List String) (k : String) :
    k ∈ sortStrings l ↔ k ∈ l :=
  (sortStrings_perm l).mem_iff

/-! ## Helper lemmas: characterizing `listBackupsPure` -/

theorem find?_append_eq {α : Type} (p : α → Bool) (l1 l2 : List α) :
    (l1 ++ l2).find? p = ((l1.find? p).orElse (fun _ => l2.find? p)) := by
  induction l1 with
  | nil => simp [Option.orElse]
  | cons a l ih =>
    by_cases h : p a = true <;> simp [List.find?, h, ih, Option.orElse]

theorem lastSnapshotFor_cons (s : ProviderAwsEbsSnapshot)
    (rest : List ProviderAwsEbsSnapshot) (k : String) :
    lastSnapshotFor (s :: rest) k =
      ((lastSnapshotFor rest k).orElse
        (fun _ => if s.snapshotDesc = k then some s else none)) := by
  simp only [lastSnapshotFor, List.reverse_cons, find?_append_eq]
  cases rest.reverse.find? (fun s => s.snapshotDesc = k) with
  | some s2 => simp [Option.orElse]
  | none =>
    by_cases h : s.snapshotDesc = k <;> simp [Option.orElse, List.find?, h]

theorem mapGet_foldl (snapshots : List ProviderAwsEbsSnapshot)
    (m0 : List (String × BackupItem)) (k : String) :
    mapGet (snapshots.foldl snapshotMapInsert m0) k =
      match lastSnapshotFor snapshots k with
      | some s => some (backupItemOfSnapshot s)
      | none => mapGet m0 k := by
  induction snapshots generalizing m0 with
  | nil => simp [lastSnapshotFor]
  | cons s rest ih =>
    rw [List.foldl_cons, ih, lastSnapshotFor_cons]
    cases lastSnapshotFor rest k with
    | some s2 => simp [Option.orElse]
    | none =>
      by_cases h : s.snapshotDesc = k <;>
        simp [Option.orElse, snapshotMapInsert, mapSet, mapGet, List.find?, h]

theorem listBackupsPure_eq (snapshots : List ProviderAwsEbsSnapshot) :
    listBackupsPure snapshots =
      (sortStrings (snapshots.map (fun s => s.snapshotDesc))).map
        (fun name =>
          match lastSnapshotFor snapshots name with
          | some s => backupItemOfSnapshot s
          | none => ⟨"", "", 0⟩) := by
  unfold listBackupsPure
  refine List.map_congr_left ?_
  intro name _
  rw [mapGet_foldl]
  cases lastSnapshotFor snapshots name with
  | some s => simp
  | none => simp [mapGet]

theorem lastSnapshotFor_of_mem (snapshots : List ProviderAwsEbsSnapshot) (k : String)
    (h : k ∈ snapshots.map (fun s => s.snapshotDesc)) :
    ∃ s, lastSnapshotFor snapshots k = some s ∧ s.snapshotDesc = k := by
  rcases List.mem_map.mp h with ⟨s0, hs0, hdesc⟩
  have hs0r : s0 ∈ snapshots.reverse := List.mem_reverse.mpr hs0
  cases hfind : lastSnapshotFor snapshots k with
  | none =>
    have := List.find?_eq_none.mp hfind s0 hs0r
    simp [hdesc] at this
  | some s =>
    refine ⟨s, rfl, ?_⟩
    have := List.find?_some hfind
    simpa using this

theorem lastSnapshotFor_mem (snapshots : List ProviderAwsEbsSnapshot) (k : String)
    (s : ProviderAwsEbsSnapshot) (h : lastSnapshotFor snapshots k = some s) :
    s ∈ snapshots ∧ s.snapshotDesc = k := by
  constructor
  · exact List.mem_reverse.mp (List.mem_of_find?_eq_some h)
  · simpa using List.find?_some h

theorem listBackupsPure_descriptions (snapshots : List ProviderAwsEbsSnapshot) :
    (listBackupsPure snapshots).map (fun b => b.description) =
      sortStrings (snapshots.map (fun s => s.snapshotDesc)) := by
  rw [listBackupsPure_eq, List.map_map]
  have : ∀ name ∈ sortStrings (snapshots.map (fun s => s.snapshotDesc)),
      ((fun b => b.description) ∘
        (fun name =>
          match lastSnapshotFor snapshots name with
          | some s => backupItemOfSnapshot s
          | none => (⟨"", "", 0⟩ : BackupItem))) name = id name := by
    intro name hname
    have hmem : name ∈ snapshots.map (fun s => s.snapshotDesc) :=
      (sortStrings_mem _ name).mp hname
    rcases lastSnapshotFor_of_mem snapshots name hmem with ⟨s, hfind, hdesc⟩
    simp [Function.comp, hfind, backupItemOfSnapshot, hdesc]
  rw [List.map_congr_left this, List.map_id]

theorem listBackupsPure_length (snapshots : List ProviderAwsEbsSnapshot) :
    (listBackupsPure snapshots).length = snapshots.length := by
  rw [listBackupsPure_eq, List.length_map, sortStrings_length, List.length_map]

theorem listBackupsPure_mem_lastWriteWins (snapshots : List ProviderAwsEbsSnapshot)
    (b : BackupItem) (hb : b ∈ listBackupsPure snapshots) :
    ∃ s, lastSnapshotFor snapshots b.description = some s ∧ b = backupItemOfSnapshot s := by
  rw [listBackupsPure_eq] at hb
  rcases List.mem_map.mp hb with ⟨name, hname, hbe⟩
  have hmem : name ∈ snapshots.map (fun s => s.snapshotDesc) :=
    (sortStrings_mem _ name).mp hname
  rcases lastSnapshotFor_of_mem snapshots name hmem with ⟨s, hfind, hdesc⟩
  rw [hfind] at hbe
  have hbdesc : b.description = name := by
    rw [← hbe]
    simp [backupItemOfSnapshot, hdesc]
  refine ⟨s, ?_, hbe.symm⟩
  rw [hbdesc, hfind]

/-! ## Helper lemmas: characterizing `deleteOldBackups` and `createBackup` -/

theorem deleteOldBackups_dryrun_eq (retention : Int) (curtime : Int)
    (provDelete : String → Except String Unit) (items : List BackupItem) :
    deleteOldBackups retention true curtime provDelete items =
      .ok (items.map (classifyPrune retention true curtime), []) := by
  induction items with
  | nil => rfl
  | cons item rest ih =>
    by_cases h : snapshotAge curtime item.timestamp > retention <;>
      simp [deleteOldBackups, h, ih, classifyPrune]

theorem deleteOldBackups_okDelete_eq (retention : Int) (curtime : Int)
    (items : List BackupItem) :
    deleteOldBackups retention false curtime okDelete items =
      .ok (items.map (classifyPrune retention false curtime),
           (items.filter
             (fun i => decide (snapshotAge curtime i.timestamp > retention))).map
             (fun i => i.identifier)) := by
  induction items with
  | nil => rfl
  | cons item rest ih =>
    by_cases h : snapshotAge curtime item.timestamp > retention <;>
      simp [deleteOldBackups, okDelete, h, ih, classifyPrune, List.filter_cons]

theorem createBackup_dryrun_eq (timeRfc3339 snapdate snaptime : String)
    (provCreate : SnapshotRequest → Except String String)
    (volumes : List ProviderAwsEbsVolume) :
    createBackup true timeRfc3339 snapdate snaptime provCreate volumes =
      .ok (volumes.map (fun v => .dryrunSkipped v.volumeId), []) := by
  induction volumes with
  | nil => rfl
  | cons v rest ih => simp [createBackup, ih]

theorem createBackup_okCreate_eq (sid timeRfc3339 snapdate snaptime : String)
    (volumes : List ProviderAwsEbsVolume) :
    createBackup false timeRfc3339 snapdate snaptime (okCreate sid) volumes =
      .ok (volumes.map (fun v => .created sid v.volumeId),
           volumes.map (fun v =>
             ⟨v.volumeId,
              (if v.volumeName ≠ "" then v.volumeName else v.volumeId) ++ "-" ++ timeRfc3339,
              snapdate, snaptime⟩)) := by
  induction volumes with
  | nil => rfl
  | cons v rest ih => simp [createBackup, okCreate, ih]

/-! ## Helper lemmas: the job loop of `main` -/

theorem runJobsLoop_eq (jobs : List (String × JobMetaConfig))
    (runner : String → Except String Unit) (names : List String) :
    runJobsLoop jobs runner names =
      ⟨names.filter (fun n => (lookupJob jobs n).enabled),
       (names.filter (fun n => (lookupJob jobs n).enabled)).length,
       (names.filter
         (fun n => (lookupJob jobs n).enabled && isError (runner n))).length⟩ := by
  induction names with
  | nil => rfl
  | cons n rest ih =>
    by_cases h : (lookupJob jobs n).enabled = true
    · cases hr : runner n <;>
        simp [runJobsLoop, h, hr, ih, isError, List.filter_cons]
    · have h2 : (lookupJob jobs n).enabled = false := by
        cases hb : (lookupJob jobs n).enabled
        · rfl
        · exact absurd hb h
      simp [runJobsLoop, h2, ih, List.filter_cons]

/-! ## Helper lemmas: the validation engine's effect on the store -/

theorem lookupEntry_nil (k' : String) : lookupEntry ([] : ConfigSection) k' = none := rfl

theorem lookupEntry_cons (k1 : String) (v1 : CValue) (rest : ConfigSection) (k' : String) :
    lookupEntry ((k1, v1) :: rest) k' = if k1 = k' then some v1 else lookupEntry rest k' := by
  by_cases h : k1 = k' <;> simp [lookupEntry, List.find?, h]

theorem lookupEntry_setEntry (m : ConfigSection) (k k' : String) (v : CValue) :
    lookupEntry (setEntry m k v) k' = if k = k' then some v else lookupEntry m k' := by
  induction m with
  | nil =>
    show lookupEntry [(k, v)] k' = _
    rw [lookupEntry_cons]
  | cons kv rest ih =>
    rcases kv with ⟨k1, v1⟩
    by_cases h1 : k1 = k
    · subst h1
      rw [show setEntry ((k1, v1) :: rest) k1 v = (k1, v) :: rest from by simp [setEntry]]
      rw [lookupEntry_cons, lookupEntry_cons]
      by_cases h : k1 = k' <;> simp [h]
    · rw [show setEntry ((k1, v1) :: rest) k v = (k1, v1) :: setEntry rest k v from by
        simp [setEntry, h1]]
      rw [lookupEntry_cons, ih, lookupEntry_cons]
      by_cases h : k1 = k'
      · subst h
        have hkk : ¬ (k = k1) := fun he => h1 he.symm
        simp [hkk]
      · simp [h]

theorem applyRule_ok_cases (configpath : String) (configmap store : ConfigSection)
    (entry : ConfigEntryValidation) (store2 : ConfigSection)
    (h : applyRule configpath configmap store entry = .ok store2) :
    store2 = store ∨
      (lookupEntry configmap entry.entryname = none ∧ entry.mandatory = false ∧
       entry.defaultval ≠ "" ∧
       store2 = setEntry store entry.entryname (.str entry.defaultval)) := by
  simp only [applyRule] at h
  cases hl : lookupEntry configmap entry.entryname with
  | some v =>
    simp only [hl] at h
    by_cases ht : entry.entrytype ≠ "" ∧ typeName v ≠ entry.entrytype
    · rw [if_pos ht] at h
      exact absurd h (fun he => Except.noConfusion he)
    · rw [if_neg ht] at h
      cases ha : entry.allowedval with
      | some allowed =>
        simp only [ha] at h
        cases hc : allowed.contains (renderValue v) with
        | true =>
          rw [hc, if_pos rfl] at h
          exact Or.inl (Except.ok.inj h).symm
        | false =>
          rw [hc] at h
          simp only [Bool.false_eq_true, if_false] at h
          exact absurd h (fun he => Except.noConfusion he)
      | none =>
        simp only [ha] at h
        exact Or.inl (Except.ok.inj h).symm
  | none =>
    simp only [hl] at h
    cases hm : entry.mandatory with
    | true =>
      rw [hm, if_pos rfl] at h
      exact absurd h (fun he => Except.noConfusion he)
    | false =>
      rw [hm] at h
      simp only [Bool.false_eq_true, if_false] at h
      by_cases hd : entry.defaultval ≠ ""
      · rw [if_pos hd] at h
        exact Or.inr ⟨rfl, rfl, hd, (Except.ok.inj h).symm⟩
      · rw [if_neg hd] at h
        exact Or.inl (Except.ok.inj h).symm

theorem applyRules_frame (configpath : String) (configmap : ConfigSection) :
    ∀ (rules : List ConfigEntryValidation) (store store' : ConfigSection),
      applyRules configpath configmap store rules = .ok store' →
      ∀ k, lookupEntry store' k = lookupEntry store k ∨
        (lookupEntry configmap k = none ∧
         ∃ r ∈ rules, r.entryname = k ∧ r.mandatory = false ∧ r.defaultval ≠ "" ∧
           lookupEntry store' k = some (.str r.defaultval)) := by
  intro rules
  induction rules with
  | nil =>
    intro store store' h k
    exact Or.inl ((Except.ok.inj h) ▸ rfl)
  | cons entry rest ih =>
    intro store store' h k
    unfold applyRules at h
    cases hr : applyRule configpath configmap store entry with
    | error e =>
      simp only [hr] at h
      exact absurd h (fun he => Except.noConfusion he)
    | ok store1 =>
      simp only [hr] at h
      rcases applyRule_ok_cases configpath configmap store entry store1 hr with
        heq | ⟨habs, hmand, hdef, heq⟩
      · rw [heq] at h
        rcases ih store store' h k with h1 | ⟨h1, r, hrmem, hprops⟩
        · exact Or.inl h1
        · exact Or.inr ⟨h1, r, List.mem_cons_of_mem entry hrmem, hprops⟩
      · subst heq
        rcases ih _ store' h k with h1 | ⟨h1, r, hrmem, hprops⟩
        · rw [lookupEntry_setEntry] at h1
          by_cases hk : entry.entryname = k
          · rw [if_pos hk] at h1
            exact Or.inr ⟨hk ▸ habs, entry, List.mem_cons_self entry rest, hk, hmand, hdef, h1⟩
          · rw [if_neg hk] at h1
            exact Or.inl h1
        · exact Or.inr ⟨h1, r, List.mem_cons_of_mem entry hrmem, hprops⟩

theorem configValidate_ok_frame (configpath : String) (configmap : ConfigSection)
    (validation : List ConfigEntryValidation) (store' : ConfigSection)
    (hok : configValidateAndSetDefaults configpath configmap validation = .ok store') :
    ∀ k, lookupEntry store' k = lookupEntry configmap k ∨
      (lookupEntry configmap k = none ∧
       ∃ r ∈ validation, r.entryname = k ∧ r.mandatory = false ∧ r.defaultval ≠ "" ∧
         lookupEntry store' k = some (.str r.defaultval)) := by
  unfold configValidateAndSetDefaults at hok
  cases hr : applyRules configpath configmap configmap validation with
  | error e =>
    simp only [hr] at hok
    exact absurd hok (fun he => Except.noConfusion he)
  | ok store =>
    simp only [hr] at hok
    cases hu : firstUnknownKey configmap validation with
    | some key =>
      simp only [hu] at hok
      exact absurd hok (fun he => Except.noConfusion he)
    | none =>
      simp only [hu] at hok
      have heq : store = store' := Except.ok.inj hok
      rw [← heq]
      exact applyRules_frame configpath configmap validation configmap store hr

/-! ## Remaining helper lemmas for the pruning pass -/

theorem tdiv_nonpos_of_nonpos_of_nonneg (a b : Int) (ha : a ≤ 0) (hb : 0 ≤ b) :
    Int.tdiv a b ≤ 0 := by
  have h1 : 0 ≤ Int.tdiv (-a) b := Int.tdiv_nonneg (by omega) hb
  have h2 : Int.tdiv (-a) b = -(Int.tdiv a b) := Int.neg_tdiv a b
  omega

theorem deleteOldBackups_okDelete_trace (retention : Int) (dryRun : Bool) (curtime : Int)
    (items : List BackupItem) :
    ∃ calls, deleteOldBackups retention dryRun curtime okDelete items
      = .ok (items.map (classifyPrune retention dryRun curtime), calls) := by
  cases dryRun
  · exact ⟨_, deleteOldBackups_okDelete_eq retention curtime items⟩
  · exact ⟨[], deleteOldBackups_dryrun_eq retention curtime okDelete items⟩

theorem trace_entry_eq_classifyPrune (retention : Int) (dryRun : Bool) (curtime : Int)
    (items : List BackupItem) (trace : List PruneAction) (calls : List String)
    (hrun : deleteOldBackups retention dryRun curtime okDelete items = .ok (trace, calls))
    (i : Nat) (item : BackupItem) (act : PruneAction)
    (hitem : items.get? i = some item) (hact : trace.get? i = some act) :
    act = classifyPrune retention dryRun curtime item := by
  rcases deleteOldBackups_okDelete_trace retention dryRun curtime items with ⟨calls2, heq⟩
  rw [heq] at hrun
  have hpair := Except.ok.inj hrun
  have htrace : items.map (classifyPrune retention dryRun curtime) = trace :=
    congrArg Prod.fst hpair
  rw [← htrace, List.get?_map, hitem] at hact
  exact (Option.some.inj hact).symm

/-! ## Claim theorems -/

/-- C1: For every backup item considered by the pruning pass, with
age-in-days = truncating division of (now − timestamp) by 86400,
`DeleteOldBackups` deletes the item iff the age strictly exceeds the job's
retention; an item whose age equals the retention exactly is kept. -/
theorem deleteOldBackups_strict_retention_boundary
    (retention : Int) (curtime : Int) (items : List BackupItem)
    (trace : List PruneAction) (calls : List String)
    (hrun : deleteOldBackups retention false curtime okDelete items = .ok (trace, calls))
    (i : Nat) (item : BackupItem) (act : PruneAction)
    (hitem : items.get? i = some item) (hact : trace.get? i = some act) :
    (act = .deleted item.identifier ↔ snapshotAge curtime item.timestamp > retention)
    ∧ (snapshotAge curtime item.timestamp = retention → act = .kept item.identifier) := by
  have hcls := trace_entry_eq_classifyPrune retention false curtime items trace calls hrun
    i item act hitem hact
  by_cases h : snapshotAge curtime item.timestamp > retention
  · rw [hcls]
    simp only [classifyPrune, if_pos h]
    constructor
    · constructor
      · intro _; exact h
      · intro _; rfl
    · intro heqret
      omega
  · rw [hcls]
    simp only [classifyPrune, if_neg h]
    constructor
    · constructor
      · intro hk; exact absurd hk (fun hk2 => PruneAction.noConfusion hk2)
      · intro hgt; exact absurd hgt h
    · intro _; trivial

theorem deleteOldBackups_strict_retention_boundary_witness :
    (PruneAction.deleted "snap-a" = .deleted "snap-a" ↔ snapshotAge 518400 0 > 5)
    ∧ (snapshotAge 518400 0 = 5 → PruneAction.deleted "snap-a" = .kept "snap-a") :=
  deleteOldBackups_strict_retention_boundary 5 518400 [⟨"snap-a", "desc-a", 0⟩]
    [.deleted "snap-a"] ["snap-a"] rfl 0 ⟨"snap-a", "desc-a", 0⟩ (.deleted "snap-a") rfl rfl

/-- C10: a backup item dated in the future (timestamp > now) has
non-positive age under Go's truncating division, so with a validated
retention (> 0) `DeleteOldBackups` never deletes it. -/
theorem deleteOldBackups_future_snapshot_kept
    (retention : Int) (dryRun : Bool) (curtime : Int) (items : List BackupItem)
    (trace : List PruneAction) (calls : List String)
    (hrun : deleteOldBackups retention dryRun curtime okDelete items = .ok (trace, calls))
    (i : Nat) (item : BackupItem) (act : PruneAction)
    (hitem : items.get? i = some item) (hact : trace.get? i = some act)
    (hfuture : curtime < item.timestamp) (hret : 0 < retention) :
    snapshotAge curtime item.timestamp ≤ 0 ∧ act = .kept item.identifier := by
  have hage : snapshotAge curtime item.timestamp ≤ 0 := by
    apply tdiv_nonpos_of_nonpos_of_nonneg
    · omega
    · omega
  refine ⟨hage, ?_⟩
  have hcls := trace_entry_eq_classifyPrune retention dryRun curtime items trace calls hrun
    i item act hitem hact
  rw [hcls]
  have hnot : ¬ snapshotAge curtime item.timestamp > retention := by omega
  simp only [classifyPrune, if_neg hnot]

theorem deleteOldBackups_future_snapshot_kept_witness :
    snapshotAge 0 259200 ≤ 0 ∧ PruneAction.kept "snap-f" = .kept "snap-f" :=
  deleteOldBackups_future_snapshot_kept 5 false 0 [⟨"snap-f", "desc-f", 259200⟩]
    [.kept "snap-f"] [] rfl 0 ⟨"snap-f", "desc-f", 259200⟩ (.kept "snap-f") rfl rfl
    (by decide) (by decide)

/-- C6: with dryrun=true neither `CreateBackup` nor `DeleteOldBackups`
issues any provider mutation call, while the per-item decisions (which
volumes get a snapshot, which items are eligible for deletion) coincide
with those of the non-dry-run pass. -/
theorem dryrun_no_provider_calls_same_decisions
    (volumes : List ProviderAwsEbsVolume) (timeRfc3339 snapdate snaptime sid : String)
    (provCreate : SnapshotRequest → Except String String)
    (retention curtime : Int) (items : List BackupItem)
    (provDelete : String → Except String Unit) :
    createBackup true timeRfc3339 snapdate snaptime provCreate volumes
      = .ok (volumes.map (fun v => .dryrunSkipped v.volumeId), [])
    ∧ deleteOldBackups retention true curtime provDelete items
      = .ok (items.map (classifyPrune retention true curtime), [])
    ∧ (createBackup false timeRfc3339 snapdate snaptime (okCreate sid) volumes).map
        (fun r => r.1.map createEventVolumeId)
      = .ok ((volumes.map (fun v => CreateEvent.dryrunSkipped v.volumeId)).map
          createEventVolumeId)
    ∧ (deleteOldBackups retention false curtime okDelete items).map
        (fun r => r.1.map isDeleteDecision)
      = .ok ((items.map (classifyPrune retention true curtime)).map isDeleteDecision) := by
  refine ⟨createBackup_dryrun_eq timeRfc3339 snapdate snaptime provCreate volumes,
    deleteOldBackups_dryrun_eq retention curtime provDelete items, ?_, ?_⟩
  · rw [createBackup_okCreate_eq]
    simp only [Except.map, List.map_map]
    rfl
  · rw [deleteOldBackups_okDelete_eq]
    simp only [Except.map, List.map_map]
    congr 1
    apply List.map_congr_left
    intro i _
    by_cases h : snapshotAge curtime i.timestamp > retention <;>
      simp [classifyPrune, isDeleteDecision, h]

/-- C7: the orchestrator runs jobs in lexicographic order of job name,
skips disabled jobs (counting them neither as attempted nor failed), and
the process outcome is a failure exit code iff at least one attempted job
failed. -/
theorem orchestrator_order_skip_outcome
    (jobs : List (String × JobMetaConfig)) (runner : String → Except String Unit) :
    (runJobsLoop jobs runner (sortedJobNames jobs)).attempted
      = (sortedJobNames jobs).filter (fun n => (lookupJob jobs n).enabled)
    ∧ List.Pairwise (fun a b => goStringLe a b = true)
        (runJobsLoop jobs runner (sortedJobNames jobs)).attempted
    ∧ (runJobsLoop jobs runner (sortedJobNames jobs)).jobcount
      = (runJobsLoop jobs runner (sortedJobNames jobs)).attempted.length
    ∧ (runJobsLoop jobs runner (sortedJobNames jobs)).errcount
      = ((runJobsLoop jobs runner (sortedJobNames jobs)).attempted.filter
          (fun n => isError (runner n))).length
    ∧ (exitCodeOfTally (runJobsLoop jobs runner (sortedJobNames jobs))
        = ExitStatusFailedToExecuteJobs
       ↔ ∃ n ∈ (runJobsLoop jobs runner (sortedJobNames jobs)).attempted,
           isError (runner n) = true)
    ∧ (exitCodeOfTally (runJobsLoop jobs runner (sortedJobNames jobs))
        = ExitStatusSuccessfulExecution
       ↔ ∀ n ∈ (runJobsLoop jobs runner (sortedJobNames jobs)).attempted,
           isError (runner n) = false) := by
  rw [runJobsLoop_eq]
  have hff : ((sortedJobNames jobs).filter (fun n => (lookupJob jobs n).enabled)).filter
      (fun n => isError (runner n))
      = (sortedJobNames jobs).filter
          (fun n => (lookupJob jobs n).enabled && isError (runner n)) := by
    rw [List.filter_filter]
    apply List.filter_congr
    intro a _
    exact Bool.and_comm _ _
  refine ⟨rfl, ?_, rfl, ?_, ?_, ?_⟩
  · exact List.Pairwise.sublist (List.filter_sublist _) (sortStrings_pairwise _)
  · rw [hff]
  · unfold exitCodeOfTally
    by_cases hpos : 0 < ((sortedJobNames jobs).filter
        (fun n => (lookupJob jobs n).enabled && isError (runner n))).length
    · simp only [hpos, if_pos]
      constructor
      · intro _
        rcases List.exists_mem_of_length_pos hpos with ⟨n, hn⟩
        have := List.mem_filter.mp hn
        rcases this with ⟨hn1, hn2⟩
        have hn3 := Bool.and_eq_true_iff.mp hn2
        exact ⟨n, List.mem_filter.mpr ⟨hn1, hn3.1⟩, hn3.2⟩
      · intro _; trivial
    · simp only [hpos, if_neg]
      constructor
      · intro h; exact absurd h (by decide)
      · intro hex
        rcases hex with ⟨n, hn, herr⟩
        have ⟨hn1, hn2⟩ := List.mem_filter.mp hn
        have hmem2 : n ∈ (sortedJobNames jobs).filter
            (fun n => (lookupJob jobs n).enabled && isError (runner n)) :=
          List.mem_filter.mpr ⟨hn1, Bool.and_eq_true_iff.mpr ⟨hn2, herr⟩⟩
        have : 0 < ((sortedJobNames jobs).filter
            (fun n => (lookupJob jobs n).enabled && isError (runner n))).length :=
          List.length_pos.mpr (List.ne_nil_of_mem hmem2)
        exact absurd this hpos
  · unfold exitCodeOfTally
    by_cases hpos : 0 < ((sortedJobNames jobs).filter
        (fun n => (lookupJob jobs n).enabled && isError (runner n))).length
    · simp only [hpos, if_pos]
      constructor
      · intro h; exact absurd h (by decide)
      · intro hall
        rcases List.exists_mem_of_length_pos hpos with ⟨n, hn⟩
        have ⟨hn1, hn2⟩ := List.mem_filter.mp hn
        have hn3 := Bool.and_eq_true_iff.mp hn2
        have := hall n (List.mem_filter.mpr ⟨hn1, hn3.1⟩)
        rw [this] at hn3
        exact Bool.noConfusion hn3.2
    · simp only [hpos, if_neg]
      constructor
      · intro _ n hn
        have ⟨hn1, hn2⟩ := List.mem_filter.mp hn
        cases herr : isError (runner n)
        · rfl
        · have hmem2 : n ∈ (sortedJobNames jobs).filter
              (fun n => (lookupJob jobs n).enabled && isError (runner n)) :=
            List.mem_filter.mpr ⟨hn1, Bool.and_eq_true_iff.mpr ⟨hn2, herr⟩⟩
          have : 0 < ((sortedJobNames jobs).filter
              (fun n => (lookupJob jobs n).enabled && isError (runner n))).length :=
            List.length_pos.mpr (List.ne_nil_of_mem hmem2)
          exact absurd this hpos
      · intro _; trivial

/-- C8: `ListBackups` returns the surviving items ordered by description in
lexicographic (string) order, not timestamp order: descriptions
["b","a","c"] come back as ["a","b","c"], and `DeleteOldBackups` then
evaluates the items in exactly that order. -/
theorem listBackups_lexicographic_order :
    (∀ snapshots : List ProviderAwsEbsSnapshot,
      List.Pairwise (fun a b => goStringLe a b = true)
        ((listBackupsPure snapshots).map (fun b => b.description)))
    ∧ listBackupsPure
        [⟨"vol-1", "snap-1", "b", 300⟩, ⟨"vol-1", "snap-2", "a", 100⟩,
         ⟨"vol-2", "snap-3", "c", 200⟩]
      = [⟨"snap-2", "a", 100⟩, ⟨"snap-1", "b", 300⟩, ⟨"snap-3", "c", 200⟩]
    ∧ deleteOldBackups 1000 false 400 okDelete
        [⟨"snap-2", "a", 100⟩, ⟨"snap-1", "b", 300⟩, ⟨"snap-3", "c", 200⟩]
      = .ok ([.kept "snap-2", .kept "snap-1", .kept "snap-3"], []) := by
  refine ⟨?_, by decide, by decide⟩
  intro snapshots
  rw [listBackupsPure_descriptions]
  exact sortStrings_pairwise _

/-- C2 counterexample: two discovered snapshots sharing a description do
NOT collapse to a single entry of the returned list: `ListBackups` keeps
one entry per discovered snapshot (the colliding description is listed
once per snapshot), each equal to the later-enumerated item. -/
theorem listBackups_duplicate_not_collapsed :
    listBackupsPure [snapDupA, snapDupB]
      = [⟨"snap-2", "dup", 200⟩, ⟨"snap-2", "dup", 200⟩]
    ∧ ((listBackupsPure [snapDupA, snapDupB]).filter
        (fun b => b.description = "dup")).length = 2 := by
  exact ⟨by decide, by decide⟩

/-- C2 amended: the returned list has one entry per discovered snapshot
(duplicated descriptions are repeated, not collapsed), and every entry is
the later-enumerated ("last-write-wins") snapshot carrying its
description; hence at most one distinct item per description survives. -/
theorem listBackups_last_write_wins_entries (snapshots : List ProviderAwsEbsSnapshot) :
    (listBackupsPure snapshots).length = snapshots.length
    ∧ ∀ b ∈ listBackupsPure snapshots,
        ∃ s, lastSnapshotFor snapshots b.description = some s
          ∧ b = backupItemOfSnapshot s :=
  ⟨listBackupsPure_length snapshots,
   fun b hb => listBackupsPure_mem_lastWriteWins snapshots b hb⟩

theorem listBackups_last_write_wins_entries_witness :
    (listBackupsPure [snapDupA, snapDupB]).length = 2
    ∧ (∃ s, lastSnapshotFor [snapDupA, snapDupB]
          (BackupItem.description ⟨"snap-2", "dup", 200⟩) = some s
        ∧ (⟨"snap-2", "dup", 200⟩ : BackupItem) = backupItemOfSnapshot s) := by
  constructor
  · exact (listBackups_last_write_wins_entries [snapDupA, snapDupB]).1
  · exact (listBackups_last_write_wins_entries [snapDupA, snapDupB]).2
      ⟨"snap-2", "dup", 200⟩ (by decide)

/-- C3 counterexample: a malformed job section (here: job "alpha" has no
`module` entry) makes `readConfiguration` fail, so `main` exits with
`ExitStatusInvalidConfiguration` before attempting any job — including the
perfectly well-formed, enabled job "beta". -/
theorem job_module_error_aborts_whole_run :
    mainModel jobsModBad (fun _ => .ok ()) = .invalidConfiguration
    ∧ (lookupJob jobsModBad "beta").enabled = true
    ∧ checkJobModules [("beta", lookupJob jobsModBad "beta")] = .ok () := by
  exact ⟨by decide, by decide, by decide⟩

/-- C3 amended: once every job section carries a valid `module` entry (so
`readConfiguration` succeeds), a job failure — including a failure of the
job-level configuration validation inside `LoadConfiguration` — aborts
only that job: the orchestrator still attempts every remaining enabled
job.  A missing or invalid `module` entry, by contrast, aborts the whole
run during configuration reading. -/
theorem job_failure_aborts_only_that_job
    (jobs : List (String × JobMetaConfig)) (runner : String → Except String Unit)
    (hmods : checkJobModules jobs = .ok ()) :
    mainModel jobs runner
      = .ranJobs (runJobsLoop jobs runner (sortedJobNames jobs))
          (exitCodeOfTally (runJobsLoop jobs runner (sortedJobNames jobs)))
    ∧ (runJobsLoop jobs runner (sortedJobNames jobs)).attempted
      = (sortedJobNames jobs).filter (fun n => (lookupJob jobs n).enabled) := by
  constructor
  · unfold mainModel
    simp only [hmods]
  · rw [runJobsLoop_eq]

theorem job_failure_aborts_only_that_job_witness :
    mainModel jobsTwoGood failAlphaRunner
      = .ranJobs (runJobsLoop jobsTwoGood failAlphaRunner (sortedJobNames jobsTwoGood))
          (exitCodeOfTally (runJobsLoop jobsTwoGood failAlphaRunner
            (sortedJobNames jobsTwoGood)))
    ∧ (runJobsLoop jobsTwoGood failAlphaRunner (sortedJobNames jobsTwoGood)).attempted
      = (sortedJobNames jobsTwoGood).filter
          (fun n => (lookupJob jobsTwoGood n).enabled) :=
  job_failure_aborts_only_that_job jobsTwoGood failAlphaRunner (by decide)

/-- C4 counterexample: an unknown key does not always surface as the
unknown-field error — the per-rule checks run first, so a mistyped known
key preempts it: with the real global rule set, a section holding a
mistyped `loglevel` and the unknown key "bogus" fails with the type error,
not with the unknown-field error naming "bogus". -/
theorem unknown_key_error_preempted :
    configValidateAndSetDefaults "global" sectionBadGlobal validateConfigGlobal
      = .error (.wrongType "loglevel" "global" "int" "string")
    ∧ configValidateAndSetDefaults "global" sectionBadGlobal validateConfigGlobal
      ≠ .error (.unknownField "bogus")
    ∧ "bogus" ∈ sectionBadGlobal.map Prod.fst
    ∧ validateConfigGlobal.all (fun r => r.entryname ≠ "bogus") = true := by
  exact ⟨by decide, by decide, by decide, by decide⟩

/-- C4 amended: a key named by no rule always makes validation fail, but
the reported error is the unknown-field error (naming some unknown key of
the section) only when every per-rule check passes; an earlier rule
violation is reported instead. -/
theorem unknown_key_always_fails
    (configpath : String) (configmap : ConfigSection)
    (validation : List ConfigEntryValidation) (k : String)
    (hmem : k ∈ configmap.map Prod.fst)
    (hunk : ∀ r ∈ validation, r.entryname ≠ k) :
    (∃ e, configValidateAndSetDefaults configpath configmap validation = .error e)
    ∧ (∀ store, applyRules configpath configmap configmap validation = .ok store →
        ∃ k2, configValidateAndSetDefaults configpath configmap validation
            = .error (.unknownField k2)
          ∧ k2 ∈ configmap.map Prod.fst ∧ ∀ r ∈ validation, r.entryname ≠ k2) := by
  rcases List.mem_map.mp hmem with ⟨kv, hkvmem, hfst⟩
  have hpkv : (¬ validation.any (fun r => r.entryname = kv.1) : Bool) = true := by
    simp only [decide_eq_true_eq, List.any_eq_true, not_exists]
    intro r hcontra
    rcases hcontra with ⟨hrmem, hrname⟩
    exact hunk r hrmem (hfst ▸ hrname)
  have hfind : ∃ kv2, configmap.find?
      (fun kv => ¬ validation.any (fun r => r.entryname = kv.1)) = some kv2 := by
    cases hf : configmap.find? (fun kv => ¬ validation.any (fun r => r.entryname = kv.1)) with
    | none =>
      have := List.find?_eq_none.mp hf kv hkvmem
      exact absurd hpkv this
    | some kv2 => exact ⟨kv2, rfl⟩
  rcases hfind with ⟨kv2, hfind⟩
  have hkv2mem : kv2 ∈ configmap := List.mem_of_find?_eq_some hfind
  have hkv2p := List.find?_some hfind
  have hkv2unknown : ∀ r ∈ validation, r.entryname ≠ kv2.1 := by
    simp only [decide_eq_true_eq, List.any_eq_true, not_exists] at hkv2p
    intro r hrmem hrname
    exact hkv2p r ⟨hrmem, hrname⟩
  have hunknownkey : firstUnknownKey configmap validation = some kv2.1 := by
    unfold firstUnknownKey
    rw [hfind]
    rfl
  constructor
  · cases happly : applyRules configpath configmap configmap validation with
    | error e =>
      refine ⟨e, ?_⟩
      unfold configValidateAndSetDefaults
      simp only [happly]
    | ok store =>
      refine ⟨.unknownField kv2.1, ?_⟩
      unfold configValidateAndSetDefaults
      simp only [happly, hunknownkey]
  · intro store happly
    refine ⟨kv2.1, ?_, List.mem_map_of_mem Prod.fst hkv2mem, hkv2unknown⟩
    unfold configValidateAndSetDefaults
    simp only [happly, hunknownkey]

theorem unknown_key_always_fails_witness :
    (∃ e, configValidateAndSetDefaults "global" [("bogus", CValue.str "x")]
        validateConfigGlobal = .error e)
    ∧ (∀ store, applyRules "global" [("bogus", CValue.str "x")]
          [("bogus", CValue.str "x")] validateConfigGlobal = .ok store →
        ∃ k2, configValidateAndSetDefaults "global" [("bogus", CValue.str "x")]
            validateConfigGlobal = .error (.unknownField k2)
          ∧ k2 ∈ ([("bogus", CValue.str "x")] : ConfigSection).map Prod.fst
          ∧ ∀ r ∈ validateConfigGlobal, r.entryname ≠ k2) :=
  unknown_key_always_fails "global" [("bogus", CValue.str "x")] validateConfigGlobal
    "bogus" (by decide) (by decide)

/-- C5 counterexample: validation is not free of effects beyond its
returned result — on the real global rule set and an empty section it
injects the default `loglevel` into the shared configuration store
(`kconfig.Set`), observably changing the store. -/
theorem validation_mutates_shared_store :
    configValidateAndSetDefaults "global" [] validateConfigGlobal
      = .ok [("loglevel", CValue.str "info")]
    ∧ ([("loglevel", CValue.str "info")] : ConfigSection) ≠ ([] : ConfigSection)
    ∧ lookupEntry [("loglevel", CValue.str "info")] "loglevel"
      ≠ lookupEntry [] "loglevel" := by
  exact ⟨by decide, by decide, by decide⟩

/-- C5 amended: validation's outcome is a deterministic function of the
section and the rules, but it writes to the shared configuration store:
on success every key either keeps the value it had in the section, or is
an injected default of a non-mandatory rule with a non-empty default whose
key was absent — no other state is modified. -/
theorem validation_deterministic_frame (configpath : String) (configmap : ConfigSection)
    (validation : List ConfigEntryValidation) (store' : ConfigSection)
    (hok : configValidateAndSetDefaults configpath configmap validation = .ok store') :
    ∀ k, lookupEntry store' k = lookupEntry configmap k
      ∨ (lookupEntry configmap k = none
         ∧ ∃ r ∈ validation, r.entryname = k ∧ r.mandatory = false ∧ r.defaultval ≠ ""
             ∧ lookupEntry store' k = some (.str r.defaultval)) :=
  configValidate_ok_frame configpath configmap validation store' hok

theorem validation_deterministic_frame_witness :
    lookupEntry [("loglevel", CValue.str "info")] "loglevel"
      = lookupEntry ([] : ConfigSection) "loglevel"
    ∨ (lookupEntry ([] : ConfigSection) "loglevel" = none
       ∧ ∃ r ∈ validateConfigGlobal, r.entryname = "loglevel" ∧ r.mandatory = false
           ∧ r.defaultval ≠ "" ∧ lookupEntry [("loglevel", CValue.str "info")] "loglevel"
             = some (.str r.defaultval)) :=
  validation_deterministic_frame "global" [] validateConfigGlobal
    [("loglevel", CValue.str "info")] (by decide) "loglevel"

/-- C9: for a rule whose key is absent from the section: if the rule is
mandatory, validation fails with the missing-field error naming the key
(shown both for the loop body and for the full validation when the rule is
reached first); if it is not mandatory, the rule's default is injected
into the configuration store — unless the default is the empty string, in
which case nothing is injected. -/
theorem rule_absent_defaults_and_missing (configpath : String)
    (configmap store : ConfigSection) (entry : ConfigEntryValidation)
    (rest : List ConfigEntryValidation)
    (habs : lookupEntry configmap entry.entryname = none) :
    (entry.mandatory = true →
      applyRule configpath configmap store entry
        = .error (.missingField entry.entryname))
    ∧ (entry.mandatory = true →
      configValidateAndSetDefaults configpath configmap (entry :: rest)
        = .error (.missingField entry.entryname))
    ∧ (entry.mandatory = false → entry.defaultval ≠ "" →
      applyRule configpath configmap store entry
        = .ok (setEntry store entry.entryname (.str entry.defaultval)))
    ∧ (entry.mandatory = false → entry.defaultval = "" →
      applyRule configpath configmap store entry = .ok store) := by
  have hrule : ∀ st : ConfigSection, applyRule configpath configmap st entry
      = if entry.mandatory = true then .error (.missingField entry.entryname)
        else if entry.defaultval ≠ "" then
          .ok (setEntry st entry.entryname (.str entry.defaultval))
        else .ok st := by
    intro st
    unfold applyRule
    simp only [habs]
  refine ⟨?_, ?_, ?_, ?_⟩
  · intro hm
    rw [hrule store, if_pos hm]
  · intro hm
    unfold configValidateAndSetDefaults applyRules
    rw [hrule configmap, if_pos hm]
  · intro hm hd
    rw [hrule store, if_neg (by rw [hm]; exact Bool.false_ne_true), if_pos hd]
  · intro hm hd
    rw [hrule store, if_neg (by rw [hm]; exact Bool.false_ne_true),
      if_neg (by rw [hd]; exact fun h => h rfl)]

theorem rule_absent_defaults_and_missing_witness :
    applyRule "jobs.job1" [] [] ⟨"aws_region", "string", true, "", none⟩
      = .error (.missingField "aws_region")
    ∧ configValidateAndSetDefaults "jobs.job1" []
        [⟨"aws_region", "string", true, "", none⟩]
      = .error (.missingField "aws_region")
    ∧ applyRule "jobs.job1" [] [] ⟨"retention", "int", false, "30", none⟩
      = .ok (setEntry [] "retention" (.str "30"))
    ∧ applyRule "jobs.job1" [] [] ⟨"instance_id", "string", false, "", none⟩
      = .ok [] := by
  refine ⟨?_, ?_, ?_, ?_⟩
  · exact (rule_absent_defaults_and_missing "jobs.job1" [] []
      ⟨"aws_region", "string", true, "", none⟩ [] rfl).1 rfl
  · exact (rule_absent_defaults_and_missing "jobs.job1" [] []
      ⟨"aws_region", "string", true, "", none⟩ [] rfl).2.1 rfl
  · exact (rule_absent_defaults_and_missing "jobs.job1" [] []
      ⟨"retention", "int", false, "30", none⟩ [] rfl).2.2.1 rfl (by decide)
  · exact (rule_absent_defaults_and_missing "jobs.job1" [] []
      ⟨"instance_id", "string", false, "", none⟩ [] rfl).2.2.2 rfl rfl

end Molibackup
